import Mathlib

/-!
Verification of the security-governance core of the `pw-api-framework`
repository: the capability firewall and risk classifier
(`src/utils/audit-logger.ts`) and the human-approval workflow
(`src/utils/approval-handler.ts`), shallowly embedded in Lean.

Modelling conventions:
* JavaScript strings are Lean `String`; `Array.prototype.includes` on a
  string array is `List.contains` (string equality).
* Timestamps are milliseconds since the epoch, modelled as `Nat`; a JS
  `Date` comparison `new Date(a) < new Date(b)` becomes `a < b`.
* File-backed append-only logs are modelled as in-memory lists of
  records, appended at the tail.
* Stateful methods of `ApprovalHandler` are modelled as pure functions
  producing a result together with a list of primitive `Effect`s
  (log append / pending insert / pending delete), in the exact order the
  method performs them; the successor state is the left fold of the
  effects over the previous state.
-/

namespace PwApi

/-- `'low' | 'medium' | 'high' | 'critical'` risk tiers. -/
inductive RiskLevel where
  | low
  | medium
  | high
  | critical
deriving DecidableEq, BEq, Repr

/-- `'pending' | 'approved' | 'rejected' | 'expired'` approval statuses. -/
inductive ApprovalStatus where
  | pending
  | approved
  | rejected
  | expired
deriving DecidableEq, BEq, Repr

/-- `'success' | 'failure' | 'blocked'` audit results. -/
inductive AuditResult where
  | success
  | failure
  | blocked
deriving DecidableEq, BEq, Repr

/-- Is `pre` a prefix of `s` (character lists)? -/
def charsStartsWith : List Char → List Char → Bool
  | [], _ => true
  | _ :: _, [] => false
  | c :: cs, d :: ds => c == d && charsStartsWith cs ds

/-- Does `sub` occur as a contiguous run inside `s` (character lists)? -/
def charsIncludes (sub : List Char) : List Char → Bool
  | [] => charsStartsWith sub []
  | c :: ds => charsStartsWith sub (c :: ds) || charsIncludes sub ds

/-- Model of JS `s.includes(sub)`: substring containment. -/
def strIncludes (s sub : String) : Bool :=
  charsIncludes sub.data s.data

/-- Model of JS `s.toLowerCase()`: character-wise lower-casing. -/
def jsToLower (s : String) : String :=
  ⟨s.data.map Char.toLower⟩

/-- `assessRiskLevel` from `src/utils/audit-logger.ts` (lines 249-261). -/
def assessRiskLevel (action : String) : RiskLevel :=
  let criticalActions : List String := ["delete", "drop", "destroy", "remove_user", "grant_admin"]
  let highActions : List String := ["create", "update", "push", "merge", "deploy"]
  let mediumActions : List String := ["write", "modify", "upload", "publish"]
  let actionLower := jsToLower action
  if criticalActions.any (fun a => strIncludes actionLower a) then .critical
  else if highActions.any (fun a => strIncludes actionLower a) then .high
  else if mediumActions.any (fun a => strIncludes actionLower a) then .medium
  else .low

/-- `CapabilityRule` configuration interface. -/
structure CapabilityRule where
  allowedActions : List String
  blockedActions : List String
  requireApproval : List String
  allowedEnvironments : List String
deriving DecidableEq, Repr

/-- Result shape of `AuditLogger.validateAction`. -/
structure ValidationResult where
  allowed : Bool
  reason : Option String
deriving DecidableEq, Repr

/-- `AuditLogger.validateAction` from `src/utils/audit-logger.ts` (lines 41-63). -/
def validateAction (caps : CapabilityRule) (action environment : String) : ValidationResult :=
  if caps.blockedActions.contains action then
    ⟨false, some ("Action '" ++ action ++ "' is blocked by capability firewall")⟩
  else if !(caps.allowedEnvironments.contains environment) then
    ⟨false, some ("Environment '" ++ environment ++ "' is not in allowed list")⟩
  else if caps.requireApproval.contains action then
    ⟨false, some ("Action '" ++ action ++ "' requires human approval (not implemented)")⟩
  else if caps.allowedActions.length > 0 && !(caps.allowedActions.contains action) then
    ⟨false, some ("Action '" ++ action ++ "' is not in allowed actions list")⟩
  else
    ⟨true, none⟩

/-- Insert `x` into `l` before the first element whose key is `≤ key x`. -/
def insertByKeyDesc (key : α → Nat) (x : α) : List α → List α
  | [] => [x]
  | y :: ys => if key y ≤ key x then x :: y :: ys else y :: insertByKeyDesc key x ys

/-- Stable descending sort by a `Nat` key: model of JS
`arr.sort((a, b) => key(b) - key(a))` (`Array.prototype.sort` is stable). -/
def sortByKeyDesc (key : α → Nat) : List α → List α
  | [] => []
  | x :: xs => insertByKeyDesc key x (sortByKeyDesc key xs)

/-- `AuditLogEntry` from `src/utils/audit-logger.ts`.  `parameters` values are
modelled as strings (their content is never inspected by the code). -/
structure AuditLogEntry where
  timestamp : Nat
  sessionId : String
  user : String
  environment : String
  toolName : String
  action : String
  parameters : List (String × String)
  result : AuditResult
  reason : Option String
  duration : Option Nat
  riskLevel : RiskLevel
deriving DecidableEq, Repr

/-- `AuditLogger.readRecentLogs`: keep the entries whose timestamp is at or
after `now - hoursBack` hours, sorted newest first.  The on-disk partitioning
into daily files is irrelevant to the record set and is not modelled. -/
def readRecentLogs (hoursBack now : Nat) (logs : List AuditLogEntry) : List AuditLogEntry :=
  let cutoffTime := now - hoursBack * 60 * 60 * 1000
  sortByKeyDesc (fun e => e.timestamp) (logs.filter (fun e => cutoffTime ≤ e.timestamp))

/-- `AuditLogger.detectAnomalies` from `src/utils/audit-logger.ts`
(lines 110-139), over the in-memory model of the stored records. -/
def detectAnomalies (hoursBack now : Nat) (logs : List AuditLogEntry) : List String :=
  let recent := readRecentLogs hoursBack now logs
  let anomalies : List String := []
  let blockedCount := (recent.filter (fun l => l.result == AuditResult.blocked)).length
  let anomalies := if blockedCount > 10 then
    anomalies ++ ["High number of blocked actions: " ++ toString blockedCount ++
      " in last " ++ toString hoursBack ++ "h"] else anomalies
  let failureCount := (recent.filter (fun l => l.result == AuditResult.failure)).length
  let anomalies := if failureCount > 5 then
    anomalies ++ ["Unusual failure rate: " ++ toString failureCount ++
      " failures in last " ++ toString hoursBack ++ "h"] else anomalies
  let criticalActions := recent.filter (fun l => l.riskLevel == RiskLevel.critical)
  let anomalies := if criticalActions.length > 0 then
    anomalies ++ ["Critical risk actions detected: " ++ toString criticalActions.length ++
      " actions"] else anomalies
  let prodAccess := recent.filter (fun l => l.environment == "production")
  let anomalies := if prodAccess.length > 0 then
    anomalies ++ ["Production environment access detected: " ++ toString prodAccess.length ++
      " invocations"] else anomalies
  anomalies

/-- JS template interpolation of a possibly-`undefined` value. -/
def jsShow : Option String → String
  | some s => s
  | none => "undefined"

/-- `withAudit` from `src/utils/audit-logger.ts` (lines 266-328).
The executor is modelled by its outcome (`Except ε T`); `errMessage e` is
`e.message` when `e instanceof Error`, `none` otherwise.  The returned error
is `Sum.inl msg` for the `new Error` thrown on a blocked action and
`Sum.inr e` for a re-thrown executor error; `startTime`/`endTime` are the
clock readings around the executor run. -/
def withAudit {ε T : Type} (errMessage : ε → Option String)
    (caps : CapabilityRule) (sessionId : String) (log : List AuditLogEntry)
    (toolName action : String) (parameters : List (String × String))
    (user environment : String)
    (executor : Except ε T) (startTime endTime : Nat) :
    Except (Sum String ε) T × List AuditLogEntry :=
  let riskLevel := assessRiskLevel action
  let validation := validateAction caps action environment
  if !validation.allowed then
    (Except.error (Sum.inl ("Action blocked: " ++ jsShow validation.reason)),
     log ++ [{ timestamp := startTime, sessionId := sessionId, user := user,
               environment := environment, toolName := toolName, action := action,
               parameters := parameters, result := AuditResult.blocked,
               reason := validation.reason, duration := none, riskLevel := riskLevel }])
  else
    match executor with
    | Except.ok result =>
        (Except.ok result,
         log ++ [{ timestamp := endTime, sessionId := sessionId, user := user,
                   environment := environment, toolName := toolName, action := action,
                   parameters := parameters, result := AuditResult.success,
                   reason := none, duration := some (endTime - startTime),
                   riskLevel := riskLevel }])
    | Except.error e =>
        (Except.error (Sum.inr e),
         log ++ [{ timestamp := endTime, sessionId := sessionId, user := user,
                   environment := environment, toolName := toolName, action := action,
                   parameters := parameters, result := AuditResult.failure,
                   reason := some ((errMessage e).getD "Unknown error"),
                   duration := some (endTime - startTime), riskLevel := riskLevel }])

/-! ### Spec-side restatements (for refinement-style claims) -/

/-- Keyword lists of the four risk tiers, as enumerated in the spec (§4.1). -/
def tierKeywords : RiskLevel → List String
  | .critical => ["delete", "drop", "destroy", "remove_user", "grant_admin"]
  | .high => ["create", "update", "push", "merge", "deploy"]
  | .medium => ["write", "modify", "upload", "publish"]
  | .low => []

/-- Case-insensitive substring match of the action against one tier's keywords. -/
def matchesTier (action : String) (t : RiskLevel) : Bool :=
  (tierKeywords t).any (fun k => strIncludes (jsToLower action) k)

/-- The spec's `classify` (§4.1): evaluate critical → high → medium → low in
that fixed order, first match returned, `low` otherwise. -/
def classifySpec (action : String) : RiskLevel :=
  if matchesTier action .critical then .critical
  else if matchesTier action .high then .high
  else if matchesTier action .medium then .medium
  else .low

/-- The spec's reading of `detectAnomalies` (§4.3): each of the four
conditions independently contributes at most one message, in the fixed
order blocked-rate, failure-rate, critical-risk, production-access. -/
def anomalyMessages (recent : List AuditLogEntry) (hoursBack : Nat) : List String :=
  let blockedCount := (recent.filter (fun l => l.result == AuditResult.blocked)).length
  let failureCount := (recent.filter (fun l => l.result == AuditResult.failure)).length
  let criticalCount := (recent.filter (fun l => l.riskLevel == RiskLevel.critical)).length
  let prodCount := (recent.filter (fun l => l.environment == "production")).length
  (if blockedCount > 10 then
    ["High number of blocked actions: " ++ toString blockedCount ++
      " in last " ++ toString hoursBack ++ "h"] else []) ++
  (if failureCount > 5 then
    ["Unusual failure rate: " ++ toString failureCount ++
      " failures in last " ++ toString hoursBack ++ "h"] else []) ++
  (if criticalCount > 0 then
    ["Critical risk actions detected: " ++ toString criticalCount ++ " actions"] else []) ++
  (if prodCount > 0 then
    ["Production environment access detected: " ++ toString prodCount ++ " invocations"] else [])

/-- A blocked-result audit record used for the concrete anomaly scenario. -/
def sampleBlockedEntry : AuditLogEntry :=
  { timestamp := 3600000, sessionId := "s", user := "u", environment := "development",
    toolName := "repo", action := "x", parameters := [], result := AuditResult.blocked,
    reason := some "blocked", duration := none, riskLevel := RiskLevel.low }

/-! ### Approval workflow (`src/utils/approval-handler.ts`) -/

/-- `ApprovalRequest` from `src/utils/approval-handler.ts`. -/
structure ApprovalRequest where
  id : String
  timestamp : Nat
  user : String
  environment : String
  toolName : String
  action : String
  parameters : List (String × String)
  riskLevel : RiskLevel
  reason : String
  status : ApprovalStatus
  approver : Option String
  approvalTimestamp : Option Nat
  expiresAt : Nat
deriving DecidableEq, Repr

/-- The `'cli' | 'web' | 'api'` interface selector. -/
inductive ApprovalInterfaceKind where
  | cli
  | web
  | api
deriving DecidableEq, Repr

/-- `ApprovalHandlerConfig` from `src/utils/approval-handler.ts`; `timeout`
is in seconds.  The `interface` field is named `iface` (Lean reserves no
word here, but the shorter name avoids clashing with doc tooling). -/
structure ApprovalHandlerConfig where
  enabled : Bool
  iface : ApprovalInterfaceKind
  timeout : Nat
  allowedApprovers : List String
  autoApproveEnvironments : Option (List String)
  requireReason : Option Bool
deriving DecidableEq, Repr

/-- Result shape `{approved, reason?, approver?}` of the approval calls. -/
structure ApprovalDecision where
  approved : Bool
  reason : Option String
  approver : Option String
deriving DecidableEq, Repr

/-- Mutable state of an `ApprovalHandler`: the pending `Map` (insertion
order, keyed by request id) and the `approvals.jsonl` append-only log. -/
structure HandlerState where
  pendingRequests : List (String × ApprovalRequest)
  approvalLog : List ApprovalRequest
deriving DecidableEq, Repr

/-- Primitive state changes an `ApprovalHandler` method performs, in order:
an append to the durable approval log, a `Map.set` on the pending set, or a
`Map.delete` on the pending set. -/
inductive Effect where
  | logAppend (r : ApprovalRequest)
  | pendingInsert (r : ApprovalRequest)
  | pendingDelete (id : String)
deriving DecidableEq, Repr

/-- JS `Map.set`: replace in place when the key exists, append otherwise. -/
def assocSet (l : List (String × ApprovalRequest)) (k : String) (v : ApprovalRequest) :
    List (String × ApprovalRequest) :=
  if l.any (fun e => e.1 == k) then l.map (fun e => if e.1 == k then (k, v) else e)
  else l ++ [(k, v)]

/-- JS `Map.get` on the pending set. -/
def lookupPending (l : List (String × ApprovalRequest)) (k : String) : Option ApprovalRequest :=
  (l.find? (fun e => e.1 == k)).map Prod.snd

/-- Apply one primitive effect to the handler state. -/
def applyEffect (st : HandlerState) : Effect → HandlerState
  | .logAppend r => { st with approvalLog := st.approvalLog ++ [r] }
  | .pendingInsert r => { st with pendingRequests := assocSet st.pendingRequests r.id r }
  | .pendingDelete id =>
      { st with pendingRequests := st.pendingRequests.filter (fun e => !(e.1 == id)) }

/-- Apply a method's effects in the order the method performs them. -/
def applyEffects (st : HandlerState) (es : List Effect) : HandlerState :=
  es.foldl applyEffect st

/-- `ApprovalHandler.requestApproval` (lines 45-125), as its result plus its
ordered effects.  `now` is the clock reading, `freshId` the generated request
id, and `ifaceResult` the decision produced by the configured interactive
interface (`cli`; `web`/`api` fall back to it), which only runs on the
non-disabled, non-auto-approved path. -/
def requestApprovalEffects (cfg : ApprovalHandlerConfig) (now : Nat) (freshId : String)
    (user environment toolName action : String) (parameters : List (String × String))
    (riskLevel : RiskLevel) (reason : String) (ifaceResult : ApprovalDecision) :
    ApprovalDecision × List Effect :=
  if !cfg.enabled then
    (⟨true, some "Approval handler disabled", none⟩, [])
  else if (cfg.autoApproveEnvironments.getD []).contains environment then
    (⟨true, some "Auto-approved for environment", some "auto-approved"⟩,
     [Effect.logAppend
        { id := freshId, timestamp := now, user := user, environment := environment,
          toolName := toolName, action := action, parameters := parameters,
          riskLevel := riskLevel, reason := reason, status := ApprovalStatus.approved,
          approver := some "auto-approved", approvalTimestamp := some now,
          expiresAt := now + cfg.timeout * 1000 }])
  else
    let request : ApprovalRequest :=
      { id := freshId, timestamp := now, user := user, environment := environment,
        toolName := toolName, action := action, parameters := parameters,
        riskLevel := riskLevel, reason := reason, status := ApprovalStatus.pending,
        approver := none, approvalTimestamp := none,
        expiresAt := now + cfg.timeout * 1000 }
    let result := ifaceResult
    let final := { request with
      status := if result.approved then ApprovalStatus.approved else ApprovalStatus.rejected,
      approver := result.approver, approvalTimestamp := some now }
    (result, [Effect.pendingInsert request, Effect.logAppend final,
              Effect.pendingDelete request.id])

/-- `requestApproval` as a state transformer. -/
def requestApproval (cfg : ApprovalHandlerConfig) (now : Nat) (freshId : String)
    (user environment toolName action : String) (parameters : List (String × String))
    (riskLevel : RiskLevel) (reason : String) (ifaceResult : ApprovalDecision)
    (st : HandlerState) : ApprovalDecision × HandlerState :=
  let (result, es) := requestApprovalEffects cfg now freshId user environment toolName action
    parameters riskLevel reason ifaceResult
  (result, applyEffects st es)

/-- The ordered effects of the expiry sweep inside
`ApprovalHandler.getPendingRequests` (lines 213-229): for each pending entry
whose `expiresAt` has passed, log the expired snapshot then delete the entry. -/
def expireEffects (now : Nat) (entries : List (String × ApprovalRequest)) : List Effect :=
  (entries.map (fun e =>
    if e.2.expiresAt < now then
      [Effect.logAppend { e.2 with status := ApprovalStatus.expired },
       Effect.pendingDelete e.1]
    else [])).flatten

/-- `ApprovalHandler.getPendingRequests`: returns the non-expired pending
requests in insertion order, with the expiry sweep as a side effect. -/
def getPendingRequests (now : Nat) (st : HandlerState) :
    List ApprovalRequest × HandlerState :=
  ((st.pendingRequests.filter (fun e => !(decide (e.2.expiresAt < now)))).map Prod.snd,
   applyEffects st (expireEffects now st.pendingRequests))

/-- `ApprovalHandler.approve` (lines 234-255), as result plus ordered effects. -/
def approveEffects (now : Nat) (requestId approver : String) (st : HandlerState) :
    Bool × List Effect :=
  match lookupPending st.pendingRequests requestId with
  | none => (false, [])
  | some request =>
    if request.expiresAt < now then
      (false, [Effect.logAppend { request with status := ApprovalStatus.expired },
               Effect.pendingDelete requestId])
    else
      let updated := { request with
        status := ApprovalStatus.approved, approver := some approver,
        approvalTimestamp := some now }
      (true, [Effect.logAppend updated, Effect.pendingDelete requestId])

/-- `approve` as a state transformer. -/
def approve (now : Nat) (requestId approver : String) (st : HandlerState) :
    Bool × HandlerState :=
  let (b, es) := approveEffects now requestId approver st
  (b, applyEffects st es)

/-- JS `if (reason) request.reason = reason` (empty string is falsy). -/
def rejectReason (reason : Option String) (old : String) : String :=
  match reason with
  | some r => if r == "" then old else r
  | none => old

/-- `ApprovalHandler.reject` (lines 260-277), as result plus ordered effects:
no expiry check is performed. -/
def rejectEffects (now : Nat) (requestId approver : String) (reason : Option String)
    (st : HandlerState) : Bool × List Effect :=
  match lookupPending st.pendingRequests requestId with
  | none => (false, [])
  | some request =>
    let updated := { request with
      status := ApprovalStatus.rejected, approver := some approver,
      approvalTimestamp := some now, reason := rejectReason reason request.reason }
    (true, [Effect.logAppend updated, Effect.pendingDelete requestId])

/-- `reject` as a state transformer. -/
def reject (now : Nat) (requestId approver : String) (reason : Option String)
    (st : HandlerState) : Bool × HandlerState :=
  let (b, es) := rejectEffects now requestId approver reason st
  (b, applyEffects st es)

/-- One `{action, count}` aggregation cell. -/
structure ActionCount where
  action : String
  count : Nat
deriving DecidableEq, Repr

/-- Per-risk-level counters of `getApprovalStats`. -/
structure RiskLevelCounts where
  low : Nat
  medium : Nat
  high : Nat
  critical : Nat
deriving DecidableEq, Repr

/-- Result shape of `ApprovalHandler.getApprovalStats`. -/
structure ApprovalStats where
  total : Nat
  approved : Nat
  rejected : Nat
  expired : Nat
  pending : Nat
  byRiskLevel : RiskLevelCounts
  byAction : List ActionCount
deriving DecidableEq, Repr

/-- Count-map update used by `getTopActions`. -/
def bumpCount (counts : List (String × Nat)) (k : String) : List (String × Nat) :=
  if counts.any (fun e => e.1 == k) then
    counts.map (fun e => if e.1 == k then (e.1, e.2 + 1) else e)
  else counts ++ [(k, 1)]

/-- `ApprovalHandler.getTopActions`: group by `toolName.action`, sort by
count descending (stable), take the first `limit`. -/
def getTopActions (approvals : List ApprovalRequest) (limit : Nat) : List ActionCount :=
  let actionCounts := approvals.foldl
    (fun m a => bumpCount m (a.toolName ++ "." ++ a.action)) []
  ((sortByKeyDesc (fun e : String × Nat => e.2) actionCounts).map
    (fun e => ActionCount.mk e.1 e.2)).take limit

/-- `ApprovalHandler.readRecentApprovals`: log entries whose timestamp is at
or after the cutoff, newest first. -/
def readRecentApprovals (hoursBack now : Nat) (st : HandlerState) : List ApprovalRequest :=
  let cutoffTime := now - hoursBack * 60 * 60 * 1000
  sortByKeyDesc (fun r => r.timestamp) (st.approvalLog.filter (fun r => cutoffTime ≤ r.timestamp))

/-- `ApprovalHandler.getApprovalStats` (lines 282-309). -/
def getApprovalStats (hoursBack now : Nat) (st : HandlerState) : ApprovalStats :=
  let logs := readRecentApprovals hoursBack now st
  { total := logs.length,
    approved := (logs.filter (fun l => l.status == ApprovalStatus.approved)).length,
    rejected := (logs.filter (fun l => l.status == ApprovalStatus.rejected)).length,
    expired := (logs.filter (fun l => l.status == ApprovalStatus.expired)).length,
    pending := st.pendingRequests.length,
    byRiskLevel :=
      { low := (logs.filter (fun l => l.riskLevel == RiskLevel.low)).length,
        medium := (logs.filter (fun l => l.riskLevel == RiskLevel.medium)).length,
        high := (logs.filter (fun l => l.riskLevel == RiskLevel.high)).length,
        critical := (logs.filter (fun l => l.riskLevel == RiskLevel.critical)).length },
    byAction := getTopActions logs 10 }

/-! ### Invariants and temporal properties of the approval workflow -/

/-- Every pending entry is keyed by its request's own id (the handler only
ever calls `Map.set(request.id, request)`, and mutations never touch `id`). -/
def IdsMatchKeys (st : HandlerState) : Prop :=
  ∀ e ∈ st.pendingRequests, e.2.id = e.1

/-- Scanning an effect list with the multiset `logged` of requests already
appended to the durable log: every `pendingDelete id` must be preceded by an
already-logged snapshot of that request in a terminal (non-pending) status. -/
def loggedFrom (logged : List ApprovalRequest) : List Effect → Prop
  | [] => True
  | Effect.logAppend r :: es => loggedFrom (r :: logged) es
  | Effect.pendingInsert _ :: es => loggedFrom logged es
  | Effect.pendingDelete id :: es =>
      (∃ r ∈ logged, r.id = id ∧ r.status ≠ ApprovalStatus.pending) ∧ loggedFrom logged es

/-- A method's effect list appends a terminal snapshot of a request to the
durable log before it removes that request from the pending set. -/
def TerminalLoggedBeforeDelete (es : List Effect) : Prop :=
  loggedFrom [] es

/-- Keys of the entries that the expiry sweep deletes. -/
def expiredKeys (now : Nat) (entries : List (String × ApprovalRequest)) : List String :=
  (entries.filter (fun e => decide (e.2.expiresAt < now))).map Prod.fst

/-- What C4 asserts of an expired pending request `(k, r)`: calling
`getPendingRequests` at time `now` does not return it, logs it as `expired`,
and removes it, and a second call at any time `now₂` neither returns it nor
logs anything further about it. -/
def ExpiresOnceOutcome (now now₂ : Nat) (st : HandlerState) (k : String)
    (r : ApprovalRequest) : Prop :=
  r ∉ (getPendingRequests now st).1
  ∧ { r with status := ApprovalStatus.expired } ∈ (getPendingRequests now st).2.approvalLog
  ∧ (∀ e ∈ (getPendingRequests now st).2.pendingRequests, e.1 ≠ k)
  ∧ (∀ r₂ ∈ (getPendingRequests now₂ (getPendingRequests now st).2).1, r₂.id ≠ r.id)
  ∧ ((getPendingRequests now₂ (getPendingRequests now st).2).2.approvalLog.filter
       (fun x => x.id == r.id)
     = (getPendingRequests now st).2.approvalLog.filter (fun x => x.id == r.id))

/-! ### Concrete inputs used by the witnesses -/

/-- A rule set blocking `deleteRepo` in environment `development`. -/
def sampleCaps : CapabilityRule :=
  { allowedActions := [], blockedActions := ["deleteRepo"],
    requireApproval := [], allowedEnvironments := ["development"] }

/-- A pending request that expires at time 15. -/
def sampleRequest : ApprovalRequest :=
  { id := "a1", timestamp := 5, user := "u", environment := "development",
    toolName := "repo", action := "deleteRepo", parameters := [],
    riskLevel := RiskLevel.critical, reason := "cleanup",
    status := ApprovalStatus.pending, approver := none, approvalTimestamp := none,
    expiresAt := 15 }

/-- A handler state holding just `sampleRequest`. -/
def sampleState : HandlerState :=
  { pendingRequests := [("a1", sampleRequest)], approvalLog := [] }

/-- An approval-workflow configuration with approvals enabled. -/
def sampleConfig : ApprovalHandlerConfig :=
  { enabled := true, iface := ApprovalInterfaceKind.cli, timeout := 300,
    allowedApprovers := [], autoApproveEnvironments := none, requireReason := none }

/-- The same configuration with the handler disabled. -/
def sampleDisabledConfig : ApprovalHandlerConfig :=
  { sampleConfig with enabled := false }

/-! ## Theorems -/

/-- C1: `validateAction` evaluates the rules in the fixed order
blocked-actions, allowed-environments, require-approval, then (when
non-empty) allowed-actions, returning the first matching denial with its
corresponding reason, and allows only when no rule matches; in particular a
blocked action is denied regardless of the environment and the other rule
sets. -/
theorem validateAction_rule_order (caps : CapabilityRule) (action environment : String) :
    (action ∈ caps.blockedActions →
      validateAction caps action environment =
        ⟨false, some ("Action '" ++ action ++ "' is blocked by capability firewall")⟩)
  ∧ (action ∉ caps.blockedActions →
     environment ∉ caps.allowedEnvironments →
      validateAction caps action environment =
        ⟨false, some ("Environment '" ++ environment ++ "' is not in allowed list")⟩)
  ∧ (action ∉ caps.blockedActions →
     environment ∈ caps.allowedEnvironments →
     action ∈ caps.requireApproval →
      validateAction caps action environment =
        ⟨false, some ("Action '" ++ action ++ "' requires human approval (not implemented)")⟩)
  ∧ (action ∉ caps.blockedActions →
     environment ∈ caps.allowedEnvironments →
     action ∉ caps.requireApproval →
     caps.allowedActions ≠ [] →
     action ∉ caps.allowedActions →
      validateAction caps action environment =
        ⟨false, some ("Action '" ++ action ++ "' is not in allowed actions list")⟩)
  ∧ (action ∉ caps.blockedActions →
     environment ∈ caps.allowedEnvironments →
     action ∉ caps.requireApproval →
     (caps.allowedActions = [] ∨ action ∈ caps.allowedActions) →
      validateAction caps action environment = ⟨true, none⟩) := by
  refine ⟨fun h1 => ?_, fun h1 h2 => ?_, fun h1 h2 h3 => ?_,
    fun h1 h2 h3 h4 h5 => ?_, fun h1 h2 h3 h4 => ?_⟩
  · simp [validateAction, h1]
  · simp [validateAction, h1, h2]
  · simp [validateAction, h1, h2, h3]
  · simp [validateAction, h1, h2, h3, h5, List.length_pos.mpr h4]
  · rcases h4 with h4 | h4 <;> simp [validateAction, h1, h2, h3, h4]

/-- C1 witness: the blocked-action rule fires on a concrete rule set. -/
theorem validateAction_rule_order_witness :
    validateAction sampleCaps "deleteRepo" "development" =
      ⟨false, some "Action 'deleteRepo' is blocked by capability firewall"⟩ :=
  (validateAction_rule_order sampleCaps "deleteRepo" "development").1 (by decide)

/-- C2: with an empty `allowedActions` list, an action that is neither
blocked nor approval-gated is allowed in any allowed environment. -/
theorem validateAction_empty_allowlist_permits (caps : CapabilityRule)
    (action environment : String)
    (hempty : caps.allowedActions = [])
    (hblocked : action ∉ caps.blockedActions)
    (happroval : action ∉ caps.requireApproval)
    (henv : environment ∈ caps.allowedEnvironments) :
    validateAction caps action environment = ⟨true, none⟩ := by
  simp [validateAction, hempty, hblocked, happroval, henv]

/-- C2 witness: an unlisted read action passes on a concrete rule set. -/
theorem validateAction_empty_allowlist_permits_witness :
    validateAction sampleCaps "readRepo" "development" = ⟨true, none⟩ :=
  validateAction_empty_allowlist_permits sampleCaps "readRepo" "development"
    rfl (by decide) (by decide) (by decide)

/-- C5: `assessRiskLevel` is a total function agreeing with the spec's
`classify` (first matching tier in the fixed order critical → high → medium
→ low, case-insensitive substring match); in particular
`grant_admin_and_update` is critical even though `update` also matches. -/
theorem assessRiskLevel_matches_spec :
    (∀ action : String, assessRiskLevel action = classifySpec action)
  ∧ assessRiskLevel "grant_admin_and_update" = RiskLevel.critical := by
  constructor
  · intro action
    rfl
  · decide

/-- C6: when the executor throws after validation passed, `withAudit`
records a failure entry carrying the measured duration and the underlying
error's message, and re-raises the identical error value. -/
theorem withAudit_failure_logs_and_reraises {ε T : Type} (errMessage : ε → Option String)
    (caps : CapabilityRule) (sessionId : String) (log : List AuditLogEntry)
    (toolName action : String) (parameters : List (String × String))
    (user environment : String) (e : ε) (startTime endTime : Nat)
    (hallowed : (validateAction caps action environment).allowed = true) :
    withAudit (T := T) errMessage caps sessionId log toolName action parameters
        user environment (Except.error e) startTime endTime =
      (Except.error (Sum.inr e),
       log ++ [{ timestamp := endTime, sessionId := sessionId, user := user,
                 environment := environment, toolName := toolName, action := action,
                 parameters := parameters, result := AuditResult.failure,
                 reason := some ((errMessage e).getD "Unknown error"),
                 duration := some (endTime - startTime),
                 riskLevel := assessRiskLevel action }]) := by
  simp [withAudit, hallowed]

/-- C6 witness: a concrete throwing executor under a passing rule set. -/
theorem withAudit_failure_logs_and_reraises_witness :
    withAudit (T := Nat) (fun s : String => some s) sampleCaps "sess" [] "repo" "readRepo"
        [] "u" "development" (Except.error "boom") 100 250 =
      (Except.error (Sum.inr "boom"),
       [{ timestamp := 250, sessionId := "sess", user := "u", environment := "development",
          toolName := "repo", action := "readRepo", parameters := [],
          result := AuditResult.failure, reason := some "boom", duration := some 150,
          riskLevel := RiskLevel.low }]) :=
  withAudit_failure_logs_and_reraises (fun s : String => some s) sampleCaps "sess" []
    "repo" "readRepo" [] "u" "development" "boom" 100 250 (by decide)

/-- C8: within the queried window, `detectAnomalies` returns exactly one
finding per triggered condition (blocked-count > 10, failure-count > 5, a
critical-risk record, a production-environment record) and no others; with
11 blocked records in the last hour, `detectAnomalies 1` includes a message
mentioning blocked actions. -/
theorem detectAnomalies_one_message_per_condition :
    (∀ hoursBack now logs, detectAnomalies hoursBack now logs =
       anomalyMessages (readRecentLogs hoursBack now logs) hoursBack)
  ∧ (detectAnomalies 1 3600000 (List.replicate 11 sampleBlockedEntry)).any
      (fun m => strIncludes m "blocked actions") = true := by
  constructor
  · intro hoursBack now logs
    simp only [detectAnomalies, anomalyMessages]
    split <;> split <;> split <;> split <;> simp
  · decide

/-- A successful pending lookup returns the entry stored under that key; in
an `IdsMatchKeys` state the returned request carries the looked-up id. -/
theorem lookupPending_id {st : HandlerState} (hids : IdsMatchKeys st)
    {k : String} {r : ApprovalRequest}
    (h : lookupPending st.pendingRequests k = some r) : r.id = k := by
  unfold lookupPending at h
  cases hfind : st.pendingRequests.find? (fun e => e.1 == k) with
  | none => rw [hfind] at h; cases h
  | some e =>
    rw [hfind] at h
    have hmem : e ∈ st.pendingRequests := List.mem_of_find?_eq_some hfind
    have hbeq := List.find?_some hfind
    have hkey : e.1 = k := by simpa using hbeq
    have hid : e.2.id = e.1 := hids e hmem
    cases h
    rw [hid, hkey]

/-- C7: `approve` on an unknown request id returns `false` and leaves the
handler state untouched; `approve` on a pending request whose `expiresAt`
has passed marks it `expired` (not approved), appends that snapshot to the
approval log, removes it from the pending set, and returns `false`. -/
theorem approve_unknown_or_expired (now : Nat) (requestId approver : String)
    (st : HandlerState) :
    (lookupPending st.pendingRequests requestId = none →
      approve now requestId approver st = (false, st))
  ∧ (∀ r, lookupPending st.pendingRequests requestId = some r → r.expiresAt < now →
      approve now requestId approver st =
        (false,
         { pendingRequests := st.pendingRequests.filter (fun e => !(e.1 == requestId)),
           approvalLog := st.approvalLog ++ [{ r with status := ApprovalStatus.expired }] })) := by
  constructor
  · intro h
    simp [approve, approveEffects, h, applyEffects]
  · intro r h hexp
    simp [approve, approveEffects, h, hexp, applyEffects, applyEffect]

/-- C7 witness: unknown ids and an expired request on a concrete state. -/
theorem approve_unknown_or_expired_witness :
    approve 20 "nope" "alice" sampleState = (false, sampleState)
  ∧ approve 20 "a1" "alice" sampleState =
      (false,
       { pendingRequests := [],
         approvalLog := [{ sampleRequest with status := ApprovalStatus.expired }] }) :=
  ⟨(approve_unknown_or_expired 20 "nope" "alice" sampleState).1 (by decide),
   (approve_unknown_or_expired 20 "a1" "alice" sampleState).2 sampleRequest
     (by decide) (by decide)⟩

/-- C9: `reject` performs no expiry check — it resolves any pending request,
even one whose `expiresAt` has passed, to `rejected` (never `expired`), logs
that snapshot, removes the request, and returns `true`; asymmetrically,
`approve` on the same expired request returns `false`. -/
theorem reject_ignores_expiry (now : Nat) (requestId approver : String)
    (reasonOpt : Option String) (st : HandlerState) (r : ApprovalRequest)
    (hlk : lookupPending st.pendingRequests requestId = some r) :
    reject now requestId approver reasonOpt st =
      (true,
       { pendingRequests := st.pendingRequests.filter (fun e => !(e.1 == requestId)),
         approvalLog := st.approvalLog ++
           [{ r with
                status := ApprovalStatus.rejected, approver := some approver,
                approvalTimestamp := some now,
                reason := rejectReason reasonOpt r.reason }] })
  ∧ (r.expiresAt < now → (approve now requestId approver st).1 = false) := by
  constructor
  · simp [reject, rejectEffects, hlk, applyEffects, applyEffect]
  · intro hexp
    simp [approve, approveEffects, hlk, hexp, applyEffects]

/-- C9 witness: rejecting the concrete expired request succeeds while
approving it fails. -/
theorem reject_ignores_expiry_witness :
    reject 20 "a1" "alice" none sampleState =
      (true,
       { pendingRequests := [],
         approvalLog := [{ sampleRequest with
           status := ApprovalStatus.rejected,
           approver := some "alice", approvalTimestamp := some 20,
           reason := rejectReason none sampleRequest.reason }] })
  ∧ (approve 20 "a1" "alice" sampleState).1 = false := by
  have h := reject_ignores_expiry 20 "a1" "alice" none sampleState sampleRequest (by decide)
  exact ⟨h.1, h.2 (by decide)⟩

/-- C10: with `enabled = false`, `requestApproval` immediately returns
approved with reason "Approval handler disabled", produces no effects —
nothing is logged, nothing becomes pending, the interface decision is never
consulted — and `getApprovalStats` is unchanged. -/
theorem requestApproval_disabled (cfg : ApprovalHandlerConfig) (now : Nat)
    (freshId user environment toolName action : String)
    (parameters : List (String × String)) (riskLevel : RiskLevel) (reason : String)
    (ifaceResult : ApprovalDecision) (st : HandlerState) (hoursBack statNow : Nat)
    (hdis : cfg.enabled = false) :
    requestApprovalEffects cfg now freshId user environment toolName action parameters
        riskLevel reason ifaceResult
      = (⟨true, some "Approval handler disabled", none⟩, [])
  ∧ requestApproval cfg now freshId user environment toolName action parameters
        riskLevel reason ifaceResult st
      = (⟨true, some "Approval handler disabled", none⟩, st)
  ∧ getApprovalStats hoursBack statNow
        (requestApproval cfg now freshId user environment toolName action parameters
          riskLevel reason ifaceResult st).2
      = getApprovalStats hoursBack statNow st := by
  refine ⟨?_, ?_, ?_⟩ <;>
    simp [requestApprovalEffects, requestApproval, hdis, applyEffects]

/-- C10 witness: a disabled handler approves without touching a concrete
state, whatever the interactive interface would have answered. -/
theorem requestApproval_disabled_witness :
    requestApproval sampleDisabledConfig 10 "a2" "u" "production" "repo" "deleteRepo"
        [] RiskLevel.critical "r" ⟨false, some "Rejected by user", none⟩ sampleState
      = (⟨true, some "Approval handler disabled", none⟩, sampleState)
  ∧ getApprovalStats 24 10
        (requestApproval sampleDisabledConfig 10 "a2" "u" "production" "repo" "deleteRepo"
          [] RiskLevel.critical "r" ⟨false, some "Rejected by user", none⟩ sampleState).2
      = getApprovalStats 24 10 sampleState := by
  have h := requestApproval_disabled sampleDisabledConfig 10 "a2" "u" "production" "repo"
    "deleteRepo" [] RiskLevel.critical "r" ⟨false, some "Rejected by user", none⟩
    sampleState 24 10 (by decide)
  exact ⟨h.2.1, h.2.2⟩

/-- The expiry sweep logs each expired snapshot immediately before deleting
its entry, so its effect list satisfies the log-before-delete discipline
from any starting log. -/
theorem loggedFrom_expireEffects (now : Nat) (entries : List (String × ApprovalRequest))
    (hids : ∀ e ∈ entries, e.2.id = e.1) (logged : List ApprovalRequest) :
    loggedFrom logged (expireEffects now entries) := by
  induction entries generalizing logged with
  | nil => trivial
  | cons e rest ih =>
    have hrest : ∀ f ∈ rest, f.2.id = f.1 := fun f hf => hids f (List.mem_cons_of_mem e hf)
    by_cases hexp : e.2.expiresAt < now
    · have : expireEffects now (e :: rest) =
          Effect.logAppend { e.2 with status := ApprovalStatus.expired } ::
          Effect.pendingDelete e.1 :: expireEffects now rest := by
        simp [expireEffects, hexp]
      rw [this]
      refine ⟨⟨{ e.2 with status := ApprovalStatus.expired }, by simp,
        hids e (List.mem_cons_self e rest), by simp⟩, ?_⟩
      exact ih hrest _
    · have : expireEffects now (e :: rest) = expireEffects now rest := by
        simp [expireEffects, hexp]
      rw [this]
      exact ih hrest logged

/-- C3: on every resolution path — the interactive `requestApproval` flow,
manual `approve` and `reject`, and the expiry sweep of `getPendingRequests`
— the terminal-status snapshot of a request is appended to the durable
approval log strictly before the request is deleted from the pending set. -/
theorem approval_log_before_removal (cfg : ApprovalHandlerConfig) (now : Nat)
    (freshId user environment toolName action : String)
    (parameters : List (String × String)) (riskLevel : RiskLevel) (reason : String)
    (ifaceResult : ApprovalDecision) (requestId approver : String)
    (reasonOpt : Option String) (st : HandlerState)
    (hids : IdsMatchKeys st) :
    TerminalLoggedBeforeDelete
      (requestApprovalEffects cfg now freshId user environment toolName action parameters
        riskLevel reason ifaceResult).2
  ∧ TerminalLoggedBeforeDelete (approveEffects now requestId approver st).2
  ∧ TerminalLoggedBeforeDelete (rejectEffects now requestId approver reasonOpt st).2
  ∧ TerminalLoggedBeforeDelete (expireEffects now st.pendingRequests) := by
  refine ⟨?_, ?_, ?_, loggedFrom_expireEffects now st.pendingRequests hids []⟩
  · unfold TerminalLoggedBeforeDelete requestApprovalEffects
    cases hen : cfg.enabled with
    | false => simp [hen, loggedFrom]
    | true =>
      by_cases hauto : environment ∈ cfg.autoApproveEnvironments.getD []
      · simp [hen, hauto, loggedFrom]
      · cases hb : ifaceResult.approved <;> simp [hen, hauto, hb, loggedFrom]
  · unfold TerminalLoggedBeforeDelete approveEffects
    cases hlk : lookupPending st.pendingRequests requestId with
    | none => trivial
    | some r =>
      have hid : r.id = requestId := lookupPending_id hids hlk
      by_cases hexp : r.expiresAt < now <;> simp [hexp, loggedFrom, hid]
  · unfold TerminalLoggedBeforeDelete rejectEffects
    cases hlk : lookupPending st.pendingRequests requestId with
    | none => trivial
    | some r =>
      have hid : r.id = requestId := lookupPending_id hids hlk
      simp [loggedFrom, hid]

/-- C3 witness: the discipline holds on a concrete configuration and state. -/
theorem approval_log_before_removal_witness :
    TerminalLoggedBeforeDelete
      (requestApprovalEffects sampleConfig 20 "a2" "u" "development" "repo" "deleteRepo"
        [] RiskLevel.critical "r" ⟨false, some "Rejected by user", none⟩).2
  ∧ TerminalLoggedBeforeDelete (approveEffects 20 "a1" "alice" sampleState).2
  ∧ TerminalLoggedBeforeDelete (rejectEffects 20 "a1" "alice" none sampleState).2
  ∧ TerminalLoggedBeforeDelete (expireEffects 20 sampleState.pendingRequests) :=
  approval_log_before_removal sampleConfig 20 "a2" "u" "development" "repo" "deleteRepo"
    [] RiskLevel.critical "r" ⟨false, some "Rejected by user", none⟩ "a1" "alice" none
    sampleState (by unfold IdsMatchKeys; decide)

/-- Unfolding step for `applyEffects`. -/
theorem applyEffects_cons (st : HandlerState) (x : Effect) (es : List Effect) :
    applyEffects st (x :: es) = applyEffects (applyEffect st x) es := rfl

/-- Applying the expiry sweep's effects (computed over a snapshot `l` of the
pending set) appends the expired snapshots of `l`, in order, to the log and
removes exactly the entries keyed by an expired key of `l`. -/
theorem applyEffects_expireEffects (now : Nat) (l : List (String × ApprovalRequest))
    (st : HandlerState) :
    applyEffects st (expireEffects now l) =
      { pendingRequests :=
          st.pendingRequests.filter (fun e => !((expiredKeys now l).contains e.1)),
        approvalLog := st.approvalLog ++
          (l.filter (fun e => decide (e.2.expiresAt < now))).map
            (fun e => { e.2 with status := ApprovalStatus.expired }) } := by
  induction l generalizing st with
  | nil =>
    simp [expireEffects, expiredKeys, applyEffects]
  | cons e rest ih =>
    by_cases hexp : e.2.expiresAt < now
    · have heff : expireEffects now (e :: rest) =
          Effect.logAppend { e.2 with status := ApprovalStatus.expired } ::
          Effect.pendingDelete e.1 :: expireEffects now rest := by
        simp [expireEffects, hexp]
      have hkeys : expiredKeys now (e :: rest) = e.1 :: expiredKeys now rest := by
        simp [expiredKeys, hexp]
      rw [heff, applyEffects_cons, applyEffects_cons, ih, hkeys]
      simp only [applyEffect]
      congr 1
      · rw [List.filter_filter]
        refine List.filter_congr fun x _ => ?_
        cases hb : (x.1 == e.1) <;>
          cases hc : (expiredKeys now rest).contains x.1 <;>
            simp_all [List.contains_cons]
      · simp [hexp, List.append_assoc]
    · have heff : expireEffects now (e :: rest) = expireEffects now rest := by
        simp [expireEffects, hexp]
      have hkeys : expiredKeys now (e :: rest) = expiredKeys now rest := by
        simp [expiredKeys, hexp]
      rw [heff, ih, hkeys]
      simp [hexp]

/-- C4: a pending request whose `expiresAt` lies in the past when
`getPendingRequests` runs is not returned, is logged as `expired`, and is
removed from the pending set, so a second call neither returns it nor logs
anything further about it (the reclassification happens exactly once). -/
theorem getPendingRequests_expires_once (now now₂ : Nat) (st : HandlerState)
    (k : String) (r : ApprovalRequest) (hids : IdsMatchKeys st)
    (hmem : (k, r) ∈ st.pendingRequests) (hexp : r.expiresAt < now) :
    ExpiresOnceOutcome now now₂ st k r := by
  have hrid : r.id = k := hids (k, r) hmem
  have hkmem : k ∈ expiredKeys now st.pendingRequests := by
    unfold expiredKeys
    exact List.mem_map_of_mem _ (List.mem_filter.mpr ⟨hmem, by simpa using hexp⟩)
  have hst₁ : (getPendingRequests now st).2 =
      { pendingRequests := st.pendingRequests.filter
          (fun e => !((expiredKeys now st.pendingRequests).contains e.1)),
        approvalLog := st.approvalLog ++
          (st.pendingRequests.filter (fun e => decide (e.2.expiresAt < now))).map
            (fun e => { e.2 with status := ApprovalStatus.expired }) } :=
    applyEffects_expireEffects now st.pendingRequests st
  have hmemSt₁ : ∀ e ∈ (getPendingRequests now st).2.pendingRequests,
      e ∈ st.pendingRequests ∧ e.1 ≠ k := by
    intro e he
    rw [hst₁] at he
    have h1 := (List.mem_filter.mp he).1
    have h2 := (List.mem_filter.mp he).2
    refine ⟨h1, fun hek => ?_⟩
    simp only [Bool.not_eq_true'] at h2
    have : e.1 ∉ expiredKeys now st.pendingRequests := by simpa using h2
    exact this (hek ▸ hkmem)
  refine ⟨?_, ?_, ?_, ?_, ?_⟩
  · intro hr
    rcases List.mem_map.mp hr with ⟨e, he, hsnd⟩
    have h2 := (List.mem_filter.mp he).2
    have : ¬ (e.2.expiresAt < now) := by simpa using h2
    exact this (hsnd ▸ hexp)
  · rw [hst₁]
    refine List.mem_append.mpr (Or.inr ?_)
    exact List.mem_map.mpr ⟨(k, r), List.mem_filter.mpr ⟨hmem, by simpa using hexp⟩, rfl⟩
  · intro e he
    exact (hmemSt₁ e he).2
  · intro r₂ hr₂
    rcases List.mem_map.mp hr₂ with ⟨e, he, hsnd⟩
    have he' := (List.mem_filter.mp he).1
    rcases hmemSt₁ e he' with ⟨hmem', hnotk⟩
    have : r₂.id = e.1 := by rw [← hsnd]; exact hids e hmem'
    rw [this, hrid]
    exact hnotk
  · have hst₂ : (getPendingRequests now₂ (getPendingRequests now st).2).2 =
        { pendingRequests := (getPendingRequests now st).2.pendingRequests.filter
            (fun e => !((expiredKeys now₂ (getPendingRequests now st).2.pendingRequests).contains e.1)),
          approvalLog := (getPendingRequests now st).2.approvalLog ++
            ((getPendingRequests now st).2.pendingRequests.filter
              (fun e => decide (e.2.expiresAt < now₂))).map
                (fun e => { e.2 with status := ApprovalStatus.expired }) } :=
      applyEffects_expireEffects now₂ (getPendingRequests now st).2.pendingRequests
        (getPendingRequests now st).2
    rw [hst₂]
    simp only [List.filter_append]
    have hnil : (((getPendingRequests now st).2.pendingRequests.filter
        (fun e => decide (e.2.expiresAt < now₂))).map
          (fun e => { e.2 with status := ApprovalStatus.expired })).filter
            (fun x => x.id == r.id) = [] := by
      rw [List.filter_eq_nil_iff]
      intro x hx
      rcases List.mem_map.mp hx with ⟨e, he, hxe⟩
      have he' := (List.mem_filter.mp he).1
      rcases hmemSt₁ e he' with ⟨hmem', hnotk⟩
      have hxid : x.id = e.1 := by rw [← hxe]; exact hids e hmem'
      simp only [beq_iff_eq]
      rw [hxid, hrid]
      simpa using hnotk
    rw [hnil, List.append_nil]

/-- C4 witness: the concrete expired request is swept exactly once. -/
theorem getPendingRequests_expires_once_witness :
    ExpiresOnceOutcome 20 30 sampleState "a1" sampleRequest :=
  getPendingRequests_expires_once 20 30 sampleState "a1" sampleRequest
    (by unfold IdsMatchKeys; decide) (by decide) (by decide)

end PwApi
